import Mathlib

/-!
Verification of `convert_aspect.py`: a batch converter that resizes screenshot
images to the nearest member of a fixed allow-list of target sizes, padding
with a white background.

The script is embedded shallowly.  Pure arithmetic (target selection, the
shrink-size computation of the image library's `Image.thumbnail`, the paste
offsets) is translated directly; the external pixel-resampling filter
(LANCZOS) is an explicit parameter `resample`, since no claim depends on the
resampled colors.  Python's float arithmetic on aspect ratios is modelled by
exact rationals.
-/

namespace ConvertAspect

/-- Pixel color: an RGB (or RGBA-interpreted) triple of naturals. -/
abbrev Color : Type := ℕ × ℕ × ℕ

/-- Raster payload of an image: color at each `(x, y)` coordinate. -/
abbrev Raster : Type := ℕ → ℕ → Color

/-- Type of the external resampling filter (`Image.LANCZOS`): source raster,
source size and destination size to destination raster.  The development is
parametric in this function. -/
abbrev Resample : Type := Raster → ℕ × ℕ → ℕ × ℕ → Raster

/-- An in-memory image of the image library: pixel dimensions, color mode
(for example `"RGB"` or `"RGBA"`) and raster. -/
structure PILImage where
  width : ℕ
  height : ℕ
  mode : String
  pix : Raster

/-- The fixed allow-list `VALID_SIZES` of output sizes (iPhone and iPad),
lines 10-15 of `convert_aspect.py`. -/
def VALID_SIZES : List (ℕ × ℕ) :=
  [(1320, 2868), (2868, 1320),
   (1290, 2796), (2796, 1290),
   (2064, 2752), (2752, 2064),
   (2048, 2732), (2732, 2048)]

/-- One step of the scan performed by Python's builtin `min(…, key=key)`:
the accumulator is replaced only when the new key is strictly smaller, so
the first element attaining the minimal key wins. -/
def minStep {α : Type} (key : α → ℚ) (acc x : α) : α :=
  if key x < key acc then x else acc

/-- Python's builtin `min(l, key=key)`: `none` on the empty list (Python
raises `ValueError` there), otherwise the first element of `l` with minimal
key, found by a stable left scan. -/
def pyMin {α : Type} (key : α → ℚ) : List α → Option α
  | [] => none
  | a :: l => some (l.foldl (minStep key) a)

/-- The key of the `min` call at lines 44-47:
`lambda s: abs((w/h) - (s[0]/s[1]))`. -/
def aspectKey (w h : ℕ) (s : ℕ × ℕ) : ℚ :=
  |(w : ℚ) / (h : ℚ) - (s.1 : ℚ) / (s.2 : ℚ)|

/-- `target_size = min(VALID_SIZES, key=lambda s: abs((w/h) - (s[0]/s[1])))`
(lines 44-47). -/
def selectTarget (w h : ℕ) : Option (ℕ × ℕ) :=
  pyMin (aspectKey w h) VALID_SIZES

/-- `round_aspect` from the image library's `Image.thumbnail`:
`max(min(floor(number), ceil(number), key=key), 1)`.  Python's two-argument
`min` with a key prefers its first argument (the floor) on ties. -/
def round_aspect (number : ℚ) (key : ℤ → ℚ) : ℤ :=
  max (if key ⌈number⌉ < key ⌊number⌋ then ⌈number⌉ else ⌊number⌋) 1

/-- The size computed by the image library's `Image.thumbnail((tw, th))` for
an image of size `(w, h)` (its `preserve_aspect_ratio` helper): a no-op when
the image already fits inside the box, otherwise the aspect-preserving shrink
bound by the tighter box dimension, the other dimension rounded by
`round_aspect`. -/
def thumbnailSize (w h tw th : ℕ) : ℕ × ℕ :=
  if w ≤ tw ∧ h ≤ th then (w, h)
  else if (w : ℚ) / (h : ℚ) ≤ (tw : ℚ) / (th : ℚ) then
    ((round_aspect ((th : ℚ) * ((w : ℚ) / (h : ℚ)))
        fun n => |(w : ℚ) / (h : ℚ) - (n : ℚ) / (th : ℚ)|).toNat, th)
  else
    (tw, (round_aspect ((tw : ℚ) / ((w : ℚ) / (h : ℚ)))
        fun n => if n = 0 then 0 else |(w : ℚ) / (h : ℚ) - (tw : ℚ) / (n : ℚ)|).toNat)

/-- `img.thumbnail(target_size, Image.LANCZOS)` (line 20): shrink to fit the
box keeping the aspect ratio; the new raster comes from the external
resampling filter, the mode is unchanged, and nothing happens when the
computed size equals the current size. -/
def thumbnail (resample : Resample) (img : PILImage) (target : ℕ × ℕ) : PILImage :=
  { width := (thumbnailSize img.width img.height target.1 target.2).1
    height := (thumbnailSize img.width img.height target.1 target.2).2
    mode := img.mode
    pix :=
      if (img.width, img.height) = thumbnailSize img.width img.height target.1 target.2
      then img.pix
      else resample img.pix (img.width, img.height)
        (thumbnailSize img.width img.height target.1 target.2) }

/-- The default fill color `(255, 255, 255)` of `fit_with_padding` (line 19). -/
def fill_color : Color := (255, 255, 255)

/-- Python's floor division `//` by 2 applied to `target - shrunk` at
lines 23-24: the centering offset of the paste. -/
def pasteOffset (t s : ℕ) : ℤ := Int.fdiv ((t : ℤ) - (s : ℤ)) 2

/-- `fit_with_padding` (lines 19-26): shrink keeping the aspect ratio,
allocate a white `"RGB"` canvas `Image.new("RGB", target_size, fill_color)`
of exactly the target size, and paste the shrunk image at the centering
offsets. -/
def fit_with_padding (resample : Resample) (img : PILImage) (target : ℕ × ℕ) :
    PILImage :=
  { width := target.1
    height := target.2
    mode := "RGB"
    pix := fun x y =>
      let im := thumbnail resample img target
      let px := pasteOffset target.1 im.width
      let py := pasteOffset target.2 im.height
      if px ≤ (x : ℤ) ∧ (x : ℤ) < px + im.width ∧
          py ≤ (y : ℤ) ∧ (y : ℤ) < py + im.height
      then im.pix ((x : ℤ) - px).toNat ((y : ℤ) - py).toNat
      else fill_color }

/-- Python's `str.lower()` applied to a suffix: lowercase every character
(ASCII case mapping, which is all that matters for extensions). -/
def strLower (s : String) : String := ⟨s.data.map Char.toLower⟩

/-- A directory entry as seen by the loop of `process_images`: the filename,
its extension `file.suffix` (as computed by `pathlib`), and the in-memory
image `ImageOps.exif_transpose(Image.open(file))` — the claims about this
program all speak about dimensions after orientation normalization, so the
entry carries the already-normalized image; for a non-image entry the payload
is junk that is never read. -/
structure FileEntry where
  name : String
  suffix : String
  image : PILImage

/-- The extension allow-list `[".png", ".jpg", ".jpeg"]` of line 30. -/
def supportedSuffixes : List String := [".png", ".jpg", ".jpeg"]

/-- The body of the loop of `process_images` (lines 29-53) for one directory
entry: `none` when no output file is written for this entry, otherwise the
written filename and image.  An entry with an unsupported extension is
skipped; an image whose normalized size is in `VALID_SIZES` is saved
unchanged; otherwise the nearest target is selected and the padded resize is
saved. -/
def processEntry (resample : Resample) (e : FileEntry) : Option (String × PILImage) :=
  if strLower e.suffix ∈ supportedSuffixes then
    if (e.image.width, e.image.height) ∈ VALID_SIZES then
      some (e.name, e.image)
    else
      match selectTarget e.image.width e.image.height with
      | none => none
      | some target => some (e.name, fit_with_padding resample e.image target)
  else none

/-- `process_images` over a directory listing: the output files (filename and
written image) produced, in listing order. -/
def process_images (resample : Resample) (entries : List FileEntry) :
    List (String × PILImage) :=
  entries.filterMap (processEntry resample)

/-- A concrete instantiation of the resampling parameter, used to build
closed witnesses: it keeps the source raster. -/
def resample0 : Resample := fun p _ _ => p

/-- A concrete supported entry whose image already has an allow-listed size. -/
def pngEntry : FileEntry :=
  { name := "shot1.png"
    suffix := ".png"
    image := { width := 1320, height := 2868, mode := "RGB", pix := fun _ _ => (255, 255, 255) } }

/-- A concrete supported entry of allow-listed size whose image is not in
`"RGB"` mode. -/
def rgbaEntry : FileEntry :=
  { name := "shot2.png"
    suffix := ".png"
    image := { width := 1320, height := 2868, mode := "RGBA", pix := fun _ _ => (0, 0, 0) } }

/-- A concrete entry with an unsupported extension. -/
def txtEntry : FileEntry :=
  { name := "notes.txt"
    suffix := ".txt"
    image := { width := 10, height := 10, mode := "RGB", pix := fun _ _ => (0, 0, 0) } }

/-- The scan of `minStep` never increases the key: its result's key is a
lower bound for the initial accumulator's key and every scanned key. -/
theorem foldl_minStep_le {α : Type} (key : α → ℚ) (l : List α) (a : α) :
    key (l.foldl (minStep key) a) ≤ key a ∧
      ∀ x ∈ l, key (l.foldl (minStep key) a) ≤ key x := by
  induction l generalizing a with
  | nil => simp
  | cons x l ih =>
    simp only [List.foldl_cons]
    obtain ⟨h1, h2⟩ := ih (minStep key a x)
    have hstep : key (minStep key a x) ≤ key a ∧ key (minStep key a x) ≤ key x := by
      rw [minStep]
      split
      · exact ⟨le_of_lt ‹_›, le_refl _⟩
      · exact ⟨le_refl _, le_of_not_lt ‹_›⟩
    refine ⟨le_trans h1 hstep.1, ?_⟩
    intro y hy
    rcases List.mem_cons.mp hy with rfl | hy
    · exact le_trans h1 hstep.2
    · exact h2 y hy

/-- Stability of the scan of `minStep`: the whole scanned list splits around
the result, and everything strictly before the result has a strictly larger
key (the scan only moves on a strict decrease). -/
theorem foldl_minStep_split {α : Type} (key : α → ℚ) (l : List α) (a : α) :
    ∃ l1 l2, a :: l = l1 ++ (l.foldl (minStep key) a) :: l2 ∧
      ∀ x ∈ l1, key (l.foldl (minStep key) a) < key x := by
  induction l generalizing a with
  | nil => exact ⟨[], [], rfl, by simp⟩
  | cons x l ih =>
    simp only [List.foldl_cons]
    by_cases hx : key x < key a
    · rw [show minStep key a x = x from if_pos hx]
      obtain ⟨l1, l2, heq, hlt⟩ := ih x
      refine ⟨a :: l1, l2, by rw [List.cons_append, ← heq], ?_⟩
      intro y hy
      rcases List.mem_cons.mp hy with rfl | hy
      · exact lt_of_le_of_lt (foldl_minStep_le key l x).1 hx
      · exact hlt y hy
    · rw [show minStep key a x = a from if_neg hx]
      obtain ⟨l1, l2, heq, hlt⟩ := ih a
      rcases l1 with _ | ⟨b, l1⟩
      · simp only [List.nil_append, List.cons.injEq] at heq
        refine ⟨[], x :: l, ?_, by simp⟩
        rw [List.nil_append, ← heq.1]
      · simp only [List.cons_append, List.cons.injEq] at heq
        obtain ⟨rfl, heq⟩ := heq
        refine ⟨a :: x :: l1, l2, ?_, ?_⟩
        · simp only [List.cons_append, List.cons.injEq]
          exact ⟨trivial, trivial, heq⟩
        intro y hy
        have ha : key (l.foldl (minStep key) a) < key a :=
          hlt a (List.mem_cons_self _ _)
        rcases List.mem_cons.mp hy with rfl | hy
        · exact ha
        rcases List.mem_cons.mp hy with rfl | hy
        · exact lt_of_lt_of_le ha (le_of_not_lt hx)
        · exact hlt y (List.mem_cons_of_mem _ hy)

/-- Specification of Python's `min` with key: when it returns a value, that
value attains the minimal key, and everything listed before it has a
strictly larger key (ties go to the earliest element). -/
theorem pyMin_spec {α : Type} (key : α → ℚ) (l : List α) (m : α)
    (h : pyMin key l = some m) :
    (∀ x ∈ l, key m ≤ key x) ∧
      ∃ l1 l2, l = l1 ++ m :: l2 ∧ ∀ x ∈ l1, key m < key x := by
  match l, h with
  | a :: l, h =>
    have hm : l.foldl (minStep key) a = m := by
      simpa [pyMin] using h
    subst hm
    obtain ⟨h1, h2⟩ := foldl_minStep_le key l a
    refine ⟨?_, foldl_minStep_split key l a⟩
    intro x hx
    rcases List.mem_cons.mp hx with rfl | hx
    · exact h1
    · exact h2 x hx

/-- Membership: a value returned by Python's `min` is an element of the
scanned list. -/
theorem pyMin_mem {α : Type} (key : α → ℚ) (l : List α) (m : α)
    (h : pyMin key l = some m) : m ∈ l := by
  obtain ⟨-, l1, l2, heq, -⟩ := pyMin_spec key l m h
  rw [heq]
  simp

/-- A selected target is a member of the allow-list. -/
theorem selectTarget_mem (w h : ℕ) (t : ℕ × ℕ)
    (ht : selectTarget w h = some t) : t ∈ VALID_SIZES :=
  pyMin_mem _ _ _ ht

/-- Every allow-listed size has positive width and height. -/
theorem VALID_SIZES_pos (s : ℕ × ℕ) (hs : s ∈ VALID_SIZES) :
    0 < s.1 ∧ 0 < s.2 := by
  fin_cases hs <;> exact ⟨by decide, by decide⟩

/-- `round_aspect` never returns less than 1. -/
theorem one_le_round_aspect (number : ℚ) (key : ℤ → ℚ) :
    1 ≤ round_aspect number key :=
  le_max_right _ 1

/-- For a positive argument, `round_aspect` is at most the ceiling. -/
theorem round_aspect_le_ceil (number : ℚ) (key : ℤ → ℚ) (h : 0 < number) :
    round_aspect number key ≤ ⌈number⌉ := by
  rw [round_aspect]
  have h1 : (1 : ℤ) ≤ ⌈number⌉ := Int.ceil_pos.mpr h
  have h2 : (if key ⌈number⌉ < key ⌊number⌋ then ⌈number⌉ else ⌊number⌋) ≤ ⌈number⌉ := by
    split
    · exact le_refl _
    · exact Int.floor_le_ceil number
  exact max_le h2 h1

/-- For a positive argument, `round_aspect` is within 1 of the exact value:
it picks the floor or the ceiling, and the clamp to 1 only fires when the
exact value is below 1 (but positive). -/
theorem round_aspect_close (number : ℚ) (key : ℤ → ℚ) (h : 0 < number) :
    |((round_aspect number key : ℤ) : ℚ) - number| < 1 := by
  rw [round_aspect, abs_lt]
  have hfc : ⌊number⌋ ≤ ⌈number⌉ := Int.floor_le_ceil number
  have hcb : ⌊number⌋ ≤ (if key ⌈number⌉ < key ⌊number⌋ then ⌈number⌉ else ⌊number⌋) ∧
      (if key ⌈number⌉ < key ⌊number⌋ then ⌈number⌉ else ⌊number⌋) ≤ ⌈number⌉ := by
    split
    · exact ⟨hfc, le_refl _⟩
    · exact ⟨le_refl _, hfc⟩
  rcases le_or_lt 1 (if key ⌈number⌉ < key ⌊number⌋ then ⌈number⌉ else ⌊number⌋) with h1 | h1
  · rw [max_eq_left h1]
    have hl : ((⌊number⌋ : ℤ) : ℚ) ≤
        ((if key ⌈number⌉ < key ⌊number⌋ then ⌈number⌉ else ⌊number⌋ : ℤ) : ℚ) := by
      exact_mod_cast hcb.1
    have hr : ((if key ⌈number⌉ < key ⌊number⌋ then ⌈number⌉ else ⌊number⌋ : ℤ) : ℚ) ≤
        ((⌈number⌉ : ℤ) : ℚ) := by
      exact_mod_cast hcb.2
    constructor
    · have := Int.sub_one_lt_floor number
      linarith
    · have := Int.ceil_lt_add_one number
      linarith
  · rw [max_eq_right (by omega)]
    have hf0 : ⌊number⌋ ≤ 0 := by omega
    have : number < 1 := by
      have h2 := Int.lt_floor_add_one number
      have h3 : ((⌊number⌋ : ℤ) : ℚ) ≤ 0 := by exact_mod_cast hf0
      linarith
    constructor
    · push_cast
      linarith
    · push_cast
      linarith

/-- In the shrinking case of `thumbnailSize` with the box proportionally at
least as wide as the image, the box height is strictly below the image
height. -/
theorem thumb_branch1_lt (w h tw th : ℕ) (hw : 0 < w) (hh : 0 < h)
    (htw : 0 < tw) (hth : 0 < th) (hnfit : ¬(w ≤ tw ∧ h ≤ th))
    (hcond : (w : ℚ) / (h : ℚ) ≤ (tw : ℚ) / (th : ℚ)) : th < h := by
  have hhq : (0 : ℚ) < (h : ℚ) := by exact_mod_cast hh
  have hthq : (0 : ℚ) < (th : ℚ) := by exact_mod_cast hth
  have hcross : (w : ℚ) * th ≤ (tw : ℚ) * h := by
    rw [div_le_div_iff hhq hthq] at hcond
    exact hcond
  by_contra hle
  push_neg at hle
  have htww : tw < w := by
    rcases Nat.lt_or_ge tw w with h1 | h1
    · exact h1
    · exact absurd ⟨h1, hle⟩ hnfit
  have hq1 : (h : ℚ) ≤ (th : ℚ) := by exact_mod_cast hle
  have hq2 : (tw : ℚ) < (w : ℚ) := by exact_mod_cast htww
  nlinarith

/-- In the shrinking case of `thumbnailSize` with the box proportionally
narrower than the image, the box width is strictly below the image width. -/
theorem thumb_branch2_lt (w h tw th : ℕ) (hw : 0 < w) (hh : 0 < h)
    (htw : 0 < tw) (hth : 0 < th) (hnfit : ¬(w ≤ tw ∧ h ≤ th))
    (hcond : ¬((w : ℚ) / (h : ℚ) ≤ (tw : ℚ) / (th : ℚ))) : tw < w := by
  have hhq : (0 : ℚ) < (h : ℚ) := by exact_mod_cast hh
  have hthq : (0 : ℚ) < (th : ℚ) := by exact_mod_cast hth
  push_neg at hcond
  have hcross : (tw : ℚ) * h < (w : ℚ) * th := by
    rw [div_lt_div_iff hthq hhq] at hcond
    exact hcond
  by_contra hle
  push_neg at hle
  have hthh : th < h := by
    rcases Nat.lt_or_ge th h with h1 | h1
    · exact h1
    · exact absurd ⟨hle, h1⟩ hnfit
  have hq1 : (w : ℚ) ≤ (tw : ℚ) := by exact_mod_cast hle
  have hq2 : (th : ℚ) < (h : ℚ) := by exact_mod_cast hthh
  nlinarith

/-- When the image already fits inside the box, `thumbnailSize` is the
identity (`Image.thumbnail` returns without resizing). -/
theorem thumbnailSize_of_fits (w h tw th : ℕ) (h1 : w ≤ tw) (h2 : h ≤ th) :
    thumbnailSize w h tw th = (w, h) := by
  rw [thumbnailSize, if_pos ⟨h1, h2⟩]

/-- Main arithmetic facts about the shrunk size: it never exceeds the box in
either dimension, it never exceeds the source in either dimension (no
upscaling), and its cross ratio differs from the source's by strictly less
than one source dimension (aspect ratio preserved up to rounding of a single
dimension to an integer). -/
theorem thumbnailSize_spec (w h tw th : ℕ) (hw : 0 < w) (hh : 0 < h)
    (htw : 0 < tw) (hth : 0 < th) :
    (thumbnailSize w h tw th).1 ≤ tw ∧ (thumbnailSize w h tw th).2 ≤ th ∧
    (thumbnailSize w h tw th).1 ≤ w ∧ (thumbnailSize w h tw th).2 ≤ h ∧
    |((thumbnailSize w h tw th).1 : ℚ) * (h : ℚ) -
        ((thumbnailSize w h tw th).2 : ℚ) * (w : ℚ)| < max (w : ℚ) (h : ℚ) := by
  have hwq : (0 : ℚ) < (w : ℚ) := by exact_mod_cast hw
  have hhq : (0 : ℚ) < (h : ℚ) := by exact_mod_cast hh
  have htwq : (0 : ℚ) < (tw : ℚ) := by exact_mod_cast htw
  have hthq : (0 : ℚ) < (th : ℚ) := by exact_mod_cast hth
  rw [thumbnailSize]
  split
  · next hfit =>
    refine ⟨hfit.1, hfit.2, le_refl _, le_refl _, ?_⟩
    have : ((w : ℚ)) * (h : ℚ) - ((h : ℚ)) * (w : ℚ) = 0 := by ring
    rw [show (((w, h) : ℕ × ℕ).1 : ℚ) = (w : ℚ) from rfl,
      show (((w, h) : ℕ × ℕ).2 : ℚ) = (h : ℚ) from rfl, this, abs_zero]
    exact lt_max_of_lt_left hwq
  · next hnfit =>
    split
    · next hcond =>
      have hth_lt : th < h := thumb_branch1_lt w h tw th hw hh htw hth hnfit hcond
      have hthhq : (th : ℚ) ≤ (h : ℚ) := by exact_mod_cast hth_lt.le
      have hcross : (w : ℚ) * th ≤ (tw : ℚ) * h := by
        rw [div_le_div_iff₀ hhq hthq] at hcond
        exact hcond
      set t : ℚ := (th : ℚ) * ((w : ℚ) / (h : ℚ)) with hts
      set key : ℤ → ℚ := fun n => |(w : ℚ) / (h : ℚ) - (n : ℚ) / (th : ℚ)| with hks
      have ht0 : 0 < t := by
        rw [hts]
        exact mul_pos hthq (div_pos hwq hhq)
      have hth_mul : t * (h : ℚ) = (th : ℚ) * (w : ℚ) := by
        rw [hts, mul_assoc, div_mul_cancel₀ _ (ne_of_gt hhq)]
      have hle_tw : round_aspect t key ≤ (tw : ℤ) := by
        refine le_trans (round_aspect_le_ceil t key ht0) (Int.ceil_le.mpr ?_)
        push_cast
        rw [hts, mul_div_assoc']
        rw [div_le_iff₀ hhq]
        linarith [mul_comm (w : ℚ) (th : ℚ)]
      have hle_w : round_aspect t key ≤ (w : ℤ) := by
        refine le_trans (round_aspect_le_ceil t key ht0) (Int.ceil_le.mpr ?_)
        push_cast
        rw [hts, mul_div_assoc']
        rw [div_le_iff₀ hhq]
        nlinarith
      have hnn : (0 : ℤ) ≤ round_aspect t key :=
        le_trans (by decide) (one_le_round_aspect t key)
      have hcast : (((round_aspect t key).toNat : ℕ) : ℚ) =
          ((round_aspect t key : ℤ) : ℚ) := by
        exact_mod_cast Int.toNat_of_nonneg hnn
      refine ⟨Int.toNat_le.mpr hle_tw, le_refl _, Int.toNat_le.mpr hle_w, hth_lt.le, ?_⟩
      have hclose := round_aspect_close t key ht0
      have heq1 : (((round_aspect t key).toNat : ℕ) : ℚ) * (h : ℚ) -
          (th : ℚ) * (w : ℚ) =
          (((round_aspect t key : ℤ) : ℚ) - t) * (h : ℚ) := by
        rw [hcast, sub_mul, hth_mul]
      calc |(((round_aspect t key).toNat : ℕ) : ℚ) * (h : ℚ) - (th : ℚ) * (w : ℚ)|
          = |((round_aspect t key : ℤ) : ℚ) - t| * |(h : ℚ)| := by
            rw [heq1, abs_mul]
        _ < 1 * (h : ℚ) := by
            rw [abs_of_pos hhq]
            exact mul_lt_mul_of_pos_right hclose hhq
        _ = (h : ℚ) := one_mul _
        _ ≤ max (w : ℚ) (h : ℚ) := le_max_right _ _
    · next hcond =>
      have htw_lt : tw < w := thumb_branch2_lt w h tw th hw hh htw hth hnfit hcond
      have htwwq : (tw : ℚ) ≤ (w : ℚ) := by exact_mod_cast htw_lt.le
      push_neg at hcond
      have hcross : (tw : ℚ) * h < (w : ℚ) * th := by
        rw [div_lt_div_iff₀ hthq hhq] at hcond
        exact hcond
      set t : ℚ := (tw : ℚ) / ((w : ℚ) / (h : ℚ)) with hts
      set key : ℤ → ℚ :=
        fun n => if n = 0 then 0 else |(w : ℚ) / (h : ℚ) - (tw : ℚ) / (n : ℚ)| with hks
      have htalt : t = (tw : ℚ) * (h : ℚ) / (w : ℚ) := by
        rw [hts, div_div_eq_mul_div]
      have ht0 : 0 < t := by
        rw [htalt]
        exact div_pos (mul_pos htwq hhq) hwq
      have htw_mul : t * (w : ℚ) = (tw : ℚ) * (h : ℚ) := by
        rw [htalt, div_mul_cancel₀ _ (ne_of_gt hwq)]
      have hle_th : round_aspect t key ≤ (th : ℤ) := by
        refine le_trans (round_aspect_le_ceil t key ht0) (Int.ceil_le.mpr ?_)
        push_cast
        rw [htalt, div_le_iff₀ hwq]
        linarith [mul_comm (w : ℚ) (th : ℚ)]
      have hle_h : round_aspect t key ≤ (h : ℤ) := by
        refine le_trans (round_aspect_le_ceil t key ht0) (Int.ceil_le.mpr ?_)
        push_cast
        rw [htalt, div_le_iff₀ hwq]
        nlinarith
      have hnn : (0 : ℤ) ≤ round_aspect t key :=
        le_trans (by decide) (one_le_round_aspect t key)
      have hcast : (((round_aspect t key).toNat : ℕ) : ℚ) =
          ((round_aspect t key : ℤ) : ℚ) := by
        exact_mod_cast Int.toNat_of_nonneg hnn
      refine ⟨le_refl _, Int.toNat_le.mpr hle_th, htw_lt.le, Int.toNat_le.mpr hle_h, ?_⟩
      have hclose := round_aspect_close t key ht0
      have heq1 : (tw : ℚ) * (h : ℚ) -
          (((round_aspect t key).toNat : ℕ) : ℚ) * (w : ℚ) =
          -((((round_aspect t key : ℤ) : ℚ) - t) * (w : ℚ)) := by
        rw [hcast, sub_mul, htw_mul]
        ring
      calc |(tw : ℚ) * (h : ℚ) - (((round_aspect t key).toNat : ℕ) : ℚ) * (w : ℚ)|
          = |((round_aspect t key : ℤ) : ℚ) - t| * |(w : ℚ)| := by
            rw [heq1, abs_neg, abs_mul]
        _ < 1 * (w : ℚ) := by
            rw [abs_of_pos hwq]
            exact mul_lt_mul_of_pos_right hclose hwq
        _ = (w : ℚ) := one_mul _
        _ ≤ max (w : ℚ) (h : ℚ) := le_max_left _ _

/-- Concrete evaluation: for a 4000x2000 image (ratio 2) the stable minimum
scan selects `(2796, 1290)` (ratio 2.1674…, distance 0.1674…), which beats
`(2868, 1320)` (ratio 2.1727…, distance 0.1727…). -/
theorem selectTarget_4000_2000 : selectTarget 4000 2000 = some (2796, 1290) := by
  have s1 : minStep (aspectKey 4000 2000) (1320, 2868) (2868, 1320) = (2868, 1320) := by
    rw [minStep, aspectKey, aspectKey]
    rw [abs_of_nonpos (by norm_num), abs_of_nonneg (by norm_num)]
    rw [if_pos (by norm_num)]
  have s2 : minStep (aspectKey 4000 2000) (2868, 1320) (1290, 2796) = (2868, 1320) := by
    rw [minStep, aspectKey, aspectKey]
    rw [abs_of_nonneg (by norm_num), abs_of_nonpos (by norm_num)]
    rw [if_neg (by norm_num)]
  have s3 : minStep (aspectKey 4000 2000) (2868, 1320) (2796, 1290) = (2796, 1290) := by
    rw [minStep, aspectKey, aspectKey]
    rw [abs_of_nonpos (by norm_num), abs_of_nonpos (by norm_num)]
    rw [if_pos (by norm_num)]
  have s4 : minStep (aspectKey 4000 2000) (2796, 1290) (2064, 2752) = (2796, 1290) := by
    rw [minStep, aspectKey, aspectKey]
    rw [abs_of_nonneg (by norm_num), abs_of_nonpos (by norm_num)]
    rw [if_neg (by norm_num)]
  have s5 : minStep (aspectKey 4000 2000) (2796, 1290) (2752, 2064) = (2796, 1290) := by
    rw [minStep, aspectKey, aspectKey]
    rw [abs_of_nonneg (by norm_num), abs_of_nonpos (by norm_num)]
    rw [if_neg (by norm_num)]
  have s6 : minStep (aspectKey 4000 2000) (2796, 1290) (2048, 2732) = (2796, 1290) := by
    rw [minStep, aspectKey, aspectKey]
    rw [abs_of_nonneg (by norm_num), abs_of_nonpos (by norm_num)]
    rw [if_neg (by norm_num)]
  have s7 : minStep (aspectKey 4000 2000) (2796, 1290) (2732, 2048) = (2796, 1290) := by
    rw [minStep, aspectKey, aspectKey]
    rw [abs_of_nonneg (by norm_num), abs_of_nonpos (by norm_num)]
    rw [if_neg (by norm_num)]
  rw [selectTarget, VALID_SIZES, pyMin]
  simp only [List.foldl_cons, List.foldl_nil]
  rw [s1, s2, s3, s4, s5, s6, s7]

/-- Concrete evaluation: a 4001x2000 image (ratio 2.0005) also selects
`(2796, 1290)`. -/
theorem selectTarget_4001_2000 : selectTarget 4001 2000 = some (2796, 1290) := by
  have s1 : minStep (aspectKey 4001 2000) (1320, 2868) (2868, 1320) = (2868, 1320) := by
    rw [minStep, aspectKey, aspectKey]
    rw [abs_of_nonpos (by norm_num), abs_of_nonneg (by norm_num)]
    rw [if_pos (by norm_num)]
  have s2 : minStep (aspectKey 4001 2000) (2868, 1320) (1290, 2796) = (2868, 1320) := by
    rw [minStep, aspectKey, aspectKey]
    rw [abs_of_nonneg (by norm_num), abs_of_nonpos (by norm_num)]
    rw [if_neg (by norm_num)]
  have s3 : minStep (aspectKey 4001 2000) (2868, 1320) (2796, 1290) = (2796, 1290) := by
    rw [minStep, aspectKey, aspectKey]
    rw [abs_of_nonpos (by norm_num), abs_of_nonpos (by norm_num)]
    rw [if_pos (by norm_num)]
  have s4 : minStep (aspectKey 4001 2000) (2796, 1290) (2064, 2752) = (2796, 1290) := by
    rw [minStep, aspectKey, aspectKey]
    rw [abs_of_nonneg (by norm_num), abs_of_nonpos (by norm_num)]
    rw [if_neg (by norm_num)]
  have s5 : minStep (aspectKey 4001 2000) (2796, 1290) (2752, 2064) = (2796, 1290) := by
    rw [minStep, aspectKey, aspectKey]
    rw [abs_of_nonneg (by norm_num), abs_of_nonpos (by norm_num)]
    rw [if_neg (by norm_num)]
  have s6 : minStep (aspectKey 4001 2000) (2796, 1290) (2048, 2732) = (2796, 1290) := by
    rw [minStep, aspectKey, aspectKey]
    rw [abs_of_nonneg (by norm_num), abs_of_nonpos (by norm_num)]
    rw [if_neg (by norm_num)]
  have s7 : minStep (aspectKey 4001 2000) (2796, 1290) (2732, 2048) = (2796, 1290) := by
    rw [minStep, aspectKey, aspectKey]
    rw [abs_of_nonneg (by norm_num), abs_of_nonpos (by norm_num)]
    rw [if_neg (by norm_num)]
  rw [selectTarget, VALID_SIZES, pyMin]
  simp only [List.foldl_cons, List.foldl_nil]
  rw [s1, s2, s3, s4, s5, s6, s7]

/-- Concrete evaluation of the shrink for 4000x2000 into the box
`(2796, 1290)`: height-bound, width `1290 * 2 = 2580` exactly. -/
theorem thumbnailSize_4000 : thumbnailSize 4000 2000 2796 1290 = (2580, 1290) := by
  rw [thumbnailSize, if_neg (by decide), if_pos (by norm_num)]
  have ht : ((1290 : ℕ) : ℚ) * (((4000 : ℕ) : ℚ) / ((2000 : ℕ) : ℚ)) = 2580 := by
    push_cast
    norm_num
  rw [ht, round_aspect]
  rw [show ⌈(2580 : ℚ)⌉ = 2580 from by norm_num,
    show ⌊(2580 : ℚ)⌋ = 2580 from by norm_num]
  rw [if_neg (lt_irrefl _)]
  decide

/-- Concrete evaluation of the shrink for 4001x2000 into the box
`(2796, 1290)`: the exact width `1290 * 4001 / 2000 = 2580.645` rounds to
2581 (the ceiling is the strictly better rational approximation of the
aspect ratio). -/
theorem thumbnailSize_4001 : thumbnailSize 4001 2000 2796 1290 = (2581, 1290) := by
  rw [thumbnailSize, if_neg (by decide), if_pos (by norm_num)]
  have ht : ((1290 : ℕ) : ℚ) * (((4001 : ℕ) : ℚ) / ((2000 : ℕ) : ℚ)) = 516129 / 200 := by
    push_cast
    norm_num
  simp only [ht, round_aspect]
  rw [show ⌈(516129 / 200 : ℚ)⌉ = 2581 from by norm_num [Int.ceil_eq_iff],
    show ⌊(516129 / 200 : ℚ)⌋ = 2580 from by norm_num]
  rw [if_pos]
  · decide
  · rw [abs_of_nonpos (by push_cast; norm_num), abs_of_nonneg (by push_cast; norm_num)]
    push_cast
    norm_num

/-- The canvas produced by `fit_with_padding` has exactly the target width. -/
theorem fit_with_padding_width (resample : Resample) (img : PILImage)
    (target : ℕ × ℕ) : (fit_with_padding resample img target).width = target.1 := rfl

/-- The canvas produced by `fit_with_padding` has exactly the target height. -/
theorem fit_with_padding_height (resample : Resample) (img : PILImage)
    (target : ℕ × ℕ) : (fit_with_padding resample img target).height = target.2 := rfl

/-- The canvas produced by `fit_with_padding` is in `"RGB"` mode
(`Image.new("RGB", …)`). -/
theorem fit_with_padding_mode (resample : Resample) (img : PILImage)
    (target : ℕ × ℕ) : (fit_with_padding resample img target).mode = "RGB" := rfl

/-- Concrete evaluation: the already-correctly-sized RGB entry is copied
through unchanged. -/
theorem processEntry_png :
    processEntry resample0 pngEntry = some ("shot1.png", pngEntry.image) := rfl

/-- Concrete evaluation: the already-correctly-sized RGBA entry is copied
through unchanged (in particular still in RGBA mode). -/
theorem processEntry_rgba :
    processEntry resample0 rgbaEntry = some ("shot2.png", rgbaEntry.image) := rfl

/-- Claim C1: for every image whose (width, height) is not in the 8-element
allow-list, the selection over the allow-list succeeds (the list is a fixed
non-empty constant) and returns a member minimizing the absolute difference
between the image's aspect ratio and the member's aspect ratio; when two
members are equidistant the one appearing earlier in the allow-list order is
chosen — everything listed before the result is at strictly larger
distance. -/
theorem selectTarget_stable_minimum (w h : ℕ) (hw : 0 < w) (hh : 0 < h)
    (hni : (w, h) ∉ VALID_SIZES) :
    ∃ t, selectTarget w h = some t ∧ t ∈ VALID_SIZES ∧
      (∀ s ∈ VALID_SIZES, aspectKey w h t ≤ aspectKey w h s) ∧
      ∃ l1 l2, VALID_SIZES = l1 ++ t :: l2 ∧
        ∀ s ∈ l1, aspectKey w h t < aspectKey w h s := by
  obtain ⟨t, ht⟩ : ∃ t, selectTarget w h = some t := ⟨_, rfl⟩
  obtain ⟨hmin, hsplit⟩ := pyMin_spec _ _ _ ht
  exact ⟨t, ht, pyMin_mem _ _ _ ht, hmin, hsplit⟩

/-- Witness for claim C1 at the concrete non-allow-listed size 4000x2000. -/
theorem selectTarget_stable_minimum_witness :
    0 < 4000 ∧ 0 < 2000 ∧ ((4000, 2000) : ℕ × ℕ) ∉ VALID_SIZES ∧
      (∃ t, selectTarget 4000 2000 = some t ∧ t ∈ VALID_SIZES ∧
        (∀ s ∈ VALID_SIZES, aspectKey 4000 2000 t ≤ aspectKey 4000 2000 s) ∧
        ∃ l1 l2, VALID_SIZES = l1 ++ t :: l2 ∧
          ∀ s ∈ l1, aspectKey 4000 2000 t < aspectKey 4000 2000 s) :=
  ⟨by decide, by decide, by decide,
    selectTarget_stable_minimum 4000 2000 (by decide) (by decide) (by decide)⟩

/-- Claim C2: every output image written by `processEntry` has pixel
dimensions equal to some member of the allow-list — the exact-match path
writes at unchanged allow-listed dimensions, the resize path writes a canvas
of exactly the selected allow-listed size. -/
theorem output_dims_allowlisted (resample : Resample) (e : FileEntry)
    (name : String) (out : PILImage)
    (hout : processEntry resample e = some (name, out)) :
    (out.width, out.height) ∈ VALID_SIZES := by
  rw [processEntry] at hout
  split_ifs at hout with hsuf hdim
  · simp only [Option.some.injEq, Prod.mk.injEq] at hout
    obtain ⟨-, rfl⟩ := hout
    exact hdim
  · split at hout
    · exact Option.noConfusion hout
    · next t heq =>
      simp only [Option.some.injEq, Prod.mk.injEq] at hout
      obtain ⟨-, rfl⟩ := hout
      rw [fit_with_padding_width, fit_with_padding_height, Prod.mk.eta]
      exact selectTarget_mem _ _ _ heq

/-- Witness for claim C2 at a concrete processed entry. -/
theorem output_dims_allowlisted_witness :
    processEntry resample0 pngEntry = some ("shot1.png", pngEntry.image) ∧
      (pngEntry.image.width, pngEntry.image.height) ∈ VALID_SIZES :=
  ⟨processEntry_png,
    output_dims_allowlisted resample0 pngEntry "shot1.png" pngEntry.image processEntry_png⟩

/-- Claim C3: an image whose post-normalization size is exactly allow-listed
is copied unchanged under the same filename — the output is the very input
image (same dimensions, same pixel content, no resize, no padding). -/
theorem exact_match_copied_unchanged (resample : Resample) (e : FileEntry)
    (hsuf : strLower e.suffix ∈ supportedSuffixes)
    (hdim : (e.image.width, e.image.height) ∈ VALID_SIZES) :
    processEntry resample e = some (e.name, e.image) := by
  rw [processEntry, if_pos hsuf, if_pos hdim]

/-- Witness for claim C3 at a concrete exact-size entry. -/
theorem exact_match_copied_unchanged_witness :
    strLower pngEntry.suffix ∈ supportedSuffixes ∧
      (pngEntry.image.width, pngEntry.image.height) ∈ VALID_SIZES ∧
      processEntry resample0 pngEntry = some (pngEntry.name, pngEntry.image) :=
  ⟨by decide, by decide,
    exact_match_copied_unchanged resample0 pngEntry (by decide) (by decide)⟩

/-- Claim C4 (counterexample): the shrunk inner image does not preserve the
source aspect ratio exactly.  For the source 4001x2000 and its chosen target
`(2796, 1290)`, the shrink yields 2581x1290, and 2581/1290 differs from
4001/2000 (the width is the integer rounding of the exact value 2580.645). -/
theorem shrink_ratio_counterexample :
    selectTarget 4001 2000 = some (2796, 1290) ∧
      thumbnailSize 4001 2000 2796 1290 = (2581, 1290) ∧
      ¬ ((2581 : ℚ) / (1290 : ℚ) = (4001 : ℚ) / (2000 : ℚ)) :=
  ⟨selectTarget_4001_2000, thumbnailSize_4001, by norm_num⟩

/-- Claim C4 (amended): for every source size and positive target size, the
shrunk inner size exceeds neither the target box nor the original size (no
upscaling); if the source already fits within the box in both dimensions it
is left at its original size; and the aspect ratio is preserved up to the
integer rounding of a single dimension: the cross difference
`shrunkW * h - shrunkH * w` is smaller in absolute value than
`max w h`. -/
theorem shrink_bounds_and_rounded_ratio (w h tw th : ℕ) (hw : 0 < w)
    (hh : 0 < h) (htw : 0 < tw) (hth : 0 < th) :
    (thumbnailSize w h tw th).1 ≤ tw ∧ (thumbnailSize w h tw th).2 ≤ th ∧
    (thumbnailSize w h tw th).1 ≤ w ∧ (thumbnailSize w h tw th).2 ≤ h ∧
    (w ≤ tw → h ≤ th → thumbnailSize w h tw th = (w, h)) ∧
    |((thumbnailSize w h tw th).1 : ℚ) * (h : ℚ) -
        ((thumbnailSize w h tw th).2 : ℚ) * (w : ℚ)| < max (w : ℚ) (h : ℚ) := by
  obtain ⟨h1, h2, h3, h4, h5⟩ := thumbnailSize_spec w h tw th hw hh htw hth
  exact ⟨h1, h2, h3, h4, fun ha hb => thumbnailSize_of_fits w h tw th ha hb, h5⟩

/-- Witness for the amended claim C4 at the concrete instance 4000x2000 into
`(2796, 1290)`. -/
theorem shrink_bounds_and_rounded_ratio_witness :
    0 < 4000 ∧ 0 < 2000 ∧ 0 < 2796 ∧ 0 < 1290 ∧
      ((thumbnailSize 4000 2000 2796 1290).1 ≤ 2796 ∧
        (thumbnailSize 4000 2000 2796 1290).2 ≤ 1290 ∧
        (thumbnailSize 4000 2000 2796 1290).1 ≤ 4000 ∧
        (thumbnailSize 4000 2000 2796 1290).2 ≤ 2000 ∧
        (4000 ≤ 2796 → 2000 ≤ 1290 → thumbnailSize 4000 2000 2796 1290 = (4000, 2000)) ∧
        |((thumbnailSize 4000 2000 2796 1290).1 : ℚ) * ((2000 : ℕ) : ℚ) -
            ((thumbnailSize 4000 2000 2796 1290).2 : ℚ) * ((4000 : ℕ) : ℚ)| <
          max ((4000 : ℕ) : ℚ) ((2000 : ℕ) : ℚ)) :=
  ⟨by decide, by decide, by decide, by decide,
    shrink_bounds_and_rounded_ratio 4000 2000 2796 1290
      (by decide) (by decide) (by decide) (by decide)⟩

/-- Claim C5: the paste offsets are exactly the floor of half the free
space, `(target - shrunk) fdiv 2`, in each axis, so the two margins of an
axis (offset on one side, remaining free space on the other) differ by at
most 1 pixel. -/
theorem paste_offsets_centering (tw th sw sh : ℕ) :
    pasteOffset tw sw = Int.fdiv ((tw : ℤ) - (sw : ℤ)) 2 ∧
    |(((tw : ℤ) - (sw : ℤ)) - pasteOffset tw sw) - pasteOffset tw sw| ≤ 1 ∧
    |(((th : ℤ) - (sh : ℤ)) - pasteOffset th sh) - pasteOffset th sh| ≤ 1 := by
  refine ⟨rfl, ?_, ?_⟩
  · rw [pasteOffset, Int.fdiv_eq_ediv _ (by norm_num), abs_le]
    constructor <;> omega
  · rw [pasteOffset, Int.fdiv_eq_ediv _ (by norm_num), abs_le]
    constructor <;> omega

/-- Claim C6 (counterexample): the target selected for 4000x2000 is not
`(2868, 1320)` — the scan returns `(2796, 1290)`, whose ratio 2.1674… is
closer to 2 than 2.1727…. -/
theorem scenario_4000_counterexample :
    ¬ (selectTarget 4000 2000 = some (2868, 1320)) := by
  rw [selectTarget_4000_2000]
  decide

/-- Claim C6 (amended): for the input 4000x2000 (ratio 2.0) the selected
target is `(2796, 1290)`, the shrunk inner image is 2580x1290
(height-bound), and it is centered with a horizontal margin of 108 pixels on
each side and 0 pixels of vertical margin. -/
theorem scenario_4000_2000 :
    selectTarget 4000 2000 = some (2796, 1290) ∧
      thumbnailSize 4000 2000 2796 1290 = (2580, 1290) ∧
      pasteOffset 2796 2580 = 108 ∧
      (2796 : ℤ) - 2580 - pasteOffset 2796 2580 = 108 ∧
      pasteOffset 1290 1290 = 0 :=
  ⟨selectTarget_4000_2000, thumbnailSize_4000, by decide, by decide, by decide⟩

/-- Claim C7 (counterexample): not every written output is in RGB mode — an
already-correctly-sized RGBA input is copied unchanged, so the written image
is in RGBA mode. -/
theorem output_mode_counterexample :
    processEntry resample0 rgbaEntry = some ("shot2.png", rgbaEntry.image) ∧
      rgbaEntry.image.mode = "RGBA" ∧ ("RGBA" : String) ≠ "RGB" :=
  ⟨processEntry_rgba, rfl, by decide⟩

/-- Claim C7 (amended): outputs of the resize path are always `"RGB"`; the
copy-unchanged path preserves the input image's mode instead. -/
theorem output_mode_cases (resample : Resample) (e : FileEntry)
    (name : String) (out : PILImage)
    (hout : processEntry resample e = some (name, out)) :
    ((e.image.width, e.image.height) ∈ VALID_SIZES ∧ out.mode = e.image.mode) ∨
    ((e.image.width, e.image.height) ∉ VALID_SIZES ∧ out.mode = "RGB") := by
  rw [processEntry] at hout
  split_ifs at hout with hsuf hdim
  · simp only [Option.some.injEq, Prod.mk.injEq] at hout
    obtain ⟨-, rfl⟩ := hout
    exact Or.inl ⟨hdim, rfl⟩
  · split at hout
    · exact Option.noConfusion hout
    · simp only [Option.some.injEq, Prod.mk.injEq] at hout
      obtain ⟨-, rfl⟩ := hout
      exact Or.inr ⟨hdim, fit_with_padding_mode _ _ _⟩

/-- Witness for the amended claim C7 at the concrete RGBA entry. -/
theorem output_mode_cases_witness :
    processEntry resample0 rgbaEntry = some ("shot2.png", rgbaEntry.image) ∧
      (((rgbaEntry.image.width, rgbaEntry.image.height) ∈ VALID_SIZES ∧
          rgbaEntry.image.mode = rgbaEntry.image.mode) ∨
        ((rgbaEntry.image.width, rgbaEntry.image.height) ∉ VALID_SIZES ∧
          rgbaEntry.image.mode = "RGB")) :=
  ⟨processEntry_rgba,
    output_mode_cases resample0 rgbaEntry "shot2.png" rgbaEntry.image processEntry_rgba⟩

/-- Claim C8: a directory entry whose extension is not `.png`, `.jpg` or
`.jpeg` after lowercasing is skipped silently: it produces no output, and
processing of the remaining entries is unaffected. -/
theorem unsupported_extension_skipped (resample : Resample) (e : FileEntry)
    (hsuf : strLower e.suffix ∉ supportedSuffixes) (rest : List FileEntry) :
    processEntry resample e = none ∧
      process_images resample (e :: rest) = process_images resample rest := by
  have h1 : processEntry resample e = none := by
    rw [processEntry, if_neg hsuf]
  refine ⟨h1, ?_⟩
  rw [process_images, process_images, List.filterMap_cons, h1]

/-- Witness for claim C8 at a concrete `.txt` entry. -/
theorem unsupported_extension_skipped_witness :
    strLower txtEntry.suffix ∉ supportedSuffixes ∧
      processEntry resample0 txtEntry = none ∧
      process_images resample0 [txtEntry, pngEntry] = process_images resample0 [pngEntry] :=
  ⟨by decide,
    (unsupported_extension_skipped resample0 txtEntry (by decide) [pngEntry]).1,
    (unsupported_extension_skipped resample0 txtEntry (by decide) [pngEntry]).2⟩

/-- Claim C9: target selection depends only on the aspect ratio — two
dimension pairs with equal ratios (cross multiplication) select the same
allow-list member. -/
theorem selection_depends_only_on_ratio (w1 h1 w2 h2 : ℕ) (hh1 : 0 < h1)
    (hh2 : 0 < h2) (hr : w1 * h2 = w2 * h1)
    (hn1 : (w1, h1) ∉ VALID_SIZES) (hn2 : (w2, h2) ∉ VALID_SIZES) :
    selectTarget w1 h1 = selectTarget w2 h2 := by
  have hk : aspectKey w1 h1 = aspectKey w2 h2 := by
    funext s
    rw [aspectKey, aspectKey]
    have hq : (w1 : ℚ) / (h1 : ℚ) = (w2 : ℚ) / (h2 : ℚ) := by
      rw [div_eq_div_iff (by exact_mod_cast hh1.ne') (by exact_mod_cast hh2.ne')]
      exact_mod_cast hr
    rw [hq]
  rw [selectTarget, selectTarget, hk]

/-- Witness for claim C9: 4000x2000 and 2000x1000 share ratio 2 and select
the same target. -/
theorem selection_depends_only_on_ratio_witness :
    0 < 2000 ∧ 0 < 1000 ∧ 4000 * 1000 = 2000 * 2000 ∧
      ((4000, 2000) : ℕ × ℕ) ∉ VALID_SIZES ∧ ((2000, 1000) : ℕ × ℕ) ∉ VALID_SIZES ∧
      selectTarget 4000 2000 = selectTarget 2000 1000 :=
  ⟨by decide, by decide, by decide, by decide, by decide,
    selection_depends_only_on_ratio 4000 2000 2000 1000
      (by decide) (by decide) (by decide) (by decide) (by decide)⟩

/-- Claim C10: for every source image and its chosen target, both paste
offsets are nonnegative and the shrunk image ends before the canvas edge, so
it lies entirely within the canvas bounds. -/
theorem paste_offsets_within_canvas (w h tw th : ℕ) (hw : 0 < w) (hh : 0 < h)
    (hsel : selectTarget w h = some (tw, th)) :
    0 ≤ pasteOffset tw (thumbnailSize w h tw th).1 ∧
    0 ≤ pasteOffset th (thumbnailSize w h tw th).2 ∧
    pasteOffset tw (thumbnailSize w h tw th).1 +
      ((thumbnailSize w h tw th).1 : ℤ) ≤ (tw : ℤ) ∧
    pasteOffset th (thumbnailSize w h tw th).2 +
      ((thumbnailSize w h tw th).2 : ℤ) ≤ (th : ℤ) := by
  have hmem := selectTarget_mem w h (tw, th) hsel
  have hpos := VALID_SIZES_pos (tw, th) hmem
  obtain ⟨h1, h2, -, -, -⟩ := thumbnailSize_spec w h tw th hw hh hpos.1 hpos.2
  refine ⟨?_, ?_, ?_, ?_⟩ <;>
    rw [pasteOffset, Int.fdiv_eq_ediv _ (by norm_num)] <;> omega

/-- Witness for claim C10 at the concrete size 4000x2000 with its selected
target `(2796, 1290)`. -/
theorem paste_offsets_within_canvas_witness :
    selectTarget 4000 2000 = some (2796, 1290) ∧
      (0 ≤ pasteOffset 2796 (thumbnailSize 4000 2000 2796 1290).1 ∧
        0 ≤ pasteOffset 1290 (thumbnailSize 4000 2000 2796 1290).2 ∧
        pasteOffset 2796 (thumbnailSize 4000 2000 2796 1290).1 +
          ((thumbnailSize 4000 2000 2796 1290).1 : ℤ) ≤ (2796 : ℤ) ∧
        pasteOffset 1290 (thumbnailSize 4000 2000 2796 1290).2 +
          ((thumbnailSize 4000 2000 2796 1290).2 : ℤ) ≤ (1290 : ℤ)) :=
  ⟨selectTarget_4000_2000,
    paste_offsets_within_canvas 4000 2000 2796 1290 (by decide) (by decide)
      selectTarget_4000_2000⟩

end ConvertAspect
